import Mathlib

/-!
# pcl: CPC segmentation configuration, the weighted RANSAC estimator, face-detection utilities

Shallow embedding of

* `segmentation/include/pcl/segmentation/cpc_segmentation.h`
  (`CPCSegmentation::setCutting`, `CPCSegmentation::setRANSACIterations`, the in-class member
  defaults, `WeightedRandomSampleConsensus::setWeights` and its `initialize ()`), and
* `apps/include/pcl/apps/face_detection/face_detection_apps_utils.h`
  (`readMatrixFromFile`, `sortFiles`).

Conventions.

* A `std::string` is a `List Char`, one `Char` per `char` of the string.
* A `std::vector<T>` is a `List T`; `v[i]` without a bounds check is `v[i]?`, and a function that
  indexes out of bounds returns `none` (the C++ behaviour is undefined there).
* `std::size_t` arithmetic is written with an explicit `% 2 ^ 64`.
* `double` and `float` values are the type `IEEE` below; only comparison is ever computed on them.
-/

set_option autoImplicit false

namespace PCL

/-! ## Floating-point values -/

/-- An IEEE-754 binary floating-point datum: not-a-number, the two infinities, or the finite
value `m * 2 ^ e`. Every finite `double` and `float` is of this form. -/
inductive IEEE where
  | nan
  | negInf
  | posInf
  | finite (m : Int) (e : Int)
deriving DecidableEq

/-- The C++ type `double`. -/
abbrev Double := IEEE

/-- The C++ type `float`. -/
abbrev Float32 := IEEE

namespace IEEE

/-- The integer `m * 2 ^ (e - base)`, for `base ≤ e`. -/
def scaled (m e base : Int) : Int := m * 2 ^ (e - base).toNat

/-- The exact rational value of a finite datum. -/
def toRat : IEEE → Option ℚ
  | finite m e => some ((m : ℚ) * (2 : ℚ) ^ e)
  | _ => none

/-- The C++ comparison `a > b`: false as soon as one side is NaN, exact otherwise. -/
def gt : IEEE → IEEE → Bool
  | nan, _ => false
  | _, nan => false
  | posInf, posInf => false
  | posInf, _ => true
  | _, posInf => false
  | negInf, _ => false
  | finite _ _, negInf => true
  | finite m1 e1, finite m2 e2 =>
      decide (scaled m2 e2 (min e1 e2) < scaled m1 e1 (min e1 e2))

/-- The value `0.0`. -/
def zero : IEEE := finite 0 0

/-- The value `1.0`. -/
def one : IEEE := finite 1 0

/-- The constant `std::numeric_limits<double>::epsilon ()`, that is `2 ^ (-52)`. -/
def epsilon : Double := finite 1 (-52)

/-- The `float` that the literal `0.16` converts to: `10737418 * 2 ^ (-26)`, the binary32 value
nearest to `0.16`. -/
def lit_0_16 : Float32 := finite 10737418 (-26)

end IEEE

/-! ## `CPCSegmentation`: the cutting parameters -/

/-- The parameter block of `CPCSegmentation<PointT>`. `lccp` stands for the whole state inherited
from `LCCPSegmentation<PointT>`; the `std::uint32_t` members are natural numbers. -/
structure CPCSegmentation (LCCP : Type) where
  lccp : LCCP
  max_cuts_ : Nat
  min_segment_size_for_cutting_ : Nat
  min_cut_score_ : Float32
  use_local_constrains_ : Bool
  use_directed_weights_ : Bool
  use_clean_cutting_ : Bool
  ransac_itrs_ : Nat

namespace CPCSegmentation

variable {LCCP : Type}

/-- A freshly constructed object: every parameter holds its default member initializer
(`max_cuts_{20}`, `min_segment_size_for_cutting_{400}`, `min_cut_score_{0.16}`,
`use_local_constrains_{true}`, `use_directed_weights_{true}`, `use_clean_cutting_{false}`,
`ransac_itrs_{10000}`). -/
def fresh (lccp : LCCP) : CPCSegmentation LCCP where
  lccp := lccp
  max_cuts_ := 20
  min_segment_size_for_cutting_ := 400
  min_cut_score_ := IEEE.lit_0_16
  use_local_constrains_ := true
  use_directed_weights_ := true
  use_clean_cutting_ := false
  ransac_itrs_ := 10000

/-- The method `setCutting` with all six arguments given. -/
def setCutting (s : CPCSegmentation LCCP) (max_cuts cutting_min_segments : Nat)
    (cutting_min_score : Float32) (locally_constrained directed_cutting clean_cutting : Bool) :
    CPCSegmentation LCCP :=
  { s with
    max_cuts_ := max_cuts
    min_segment_size_for_cutting_ := cutting_min_segments
    min_cut_score_ := cutting_min_score
    use_local_constrains_ := locally_constrained
    use_directed_weights_ := directed_cutting
    use_clean_cutting_ := clean_cutting }

/-- The call `setCutting ()`: every argument takes its declared default
(`max_cuts = 20`, `cutting_min_segments = 0`, `cutting_min_score = 0.16`,
`locally_constrained = true`, `directed_cutting = true`, `clean_cutting = false`). -/
def setCuttingDefault (s : CPCSegmentation LCCP) : CPCSegmentation LCCP :=
  setCutting s 20 0 IEEE.lit_0_16 true true false

/-- The method `setRANSACIterations`. -/
def setRANSACIterations (s : CPCSegmentation LCCP) (ransac_iterations : Nat) :
    CPCSegmentation LCCP :=
  { s with ransac_itrs_ := ransac_iterations }

end CPCSegmentation

/-! ## `WeightedRandomSampleConsensus` -/

/-- The estimator object. `base` stands for the state inherited from `SampleConsensus` other than
`max_iterations_`. Elements of `pcl::Indices` are natural numbers: a position pushed by
`setWeights` is below the length of a vector held in memory. -/
structure WeightedRandomSampleConsensus (Base Cloud : Type) where
  base : Base
  max_iterations_ : Nat
  use_directed_weights_ : Bool
  weights_ : List Double
  model_pt_indices_ : List Nat
  full_cloud_pt_indices_ : List Nat
  point_cloud_ptr_ : Cloud
  best_score_ : Double

/-- What a call of a `void` method hands back: the returned value (of type `Unit`), the object
after the call, and the messages passed to `PCL_ERROR` during the call. -/
structure VoidCall (σ : Type) where
  ret : Unit
  self : σ
  console : List String

namespace WeightedRandomSampleConsensus

variable {Base Cloud : Type}

/-- The method `initialize ()`, given what `sac_model_->getIndices ()` and
`sac_model_->getInputCloud ()` return. -/
def init (s : WeightedRandomSampleConsensus Base Cloud) (sac_indices : List Nat)
    (sac_input : Cloud) : WeightedRandomSampleConsensus Base Cloud :=
  { s with
    max_iterations_ := 10000
    use_directed_weights_ := false
    model_pt_indices_ := []
    full_cloud_pt_indices_ := sac_indices
    point_cloud_ptr_ := sac_input }

/-- Either constructor: the base-class constructor, then `initialize ()`. `weights_` is a
default-constructed vector; `best_score_` has no initializer, so its value is whatever `junk` is. -/
def construct (base : Base) (sac_indices : List Nat) (sac_input : Cloud) (junk : Double) :
    WeightedRandomSampleConsensus Base Cloud :=
  init
    { base := base, max_iterations_ := 0, use_directed_weights_ := false, weights_ := [],
      model_pt_indices_ := [], full_cloud_pt_indices_ := [], point_cloud_ptr_ := sac_input,
      best_score_ := junk }
    sac_indices sac_input

/-- The text that `setWeights` passes to `PCL_ERROR`. -/
def setWeightsError : String :=
  "[pcl::WeightedRandomSampleConsensus::setWeights] Cannot assign weights. Weight vector needs to have the same length as the input pointcloud\n"

/-- The loop of `setWeights`, from position `i` on: `rest` are `weights[i]`, `weights[i+1]`, ...
and `pool` is `*model_pt_indices_` so far. -/
def pushPositive : List Double → Nat → List Nat → List Nat
  | [], _, pool => pool
  | w :: rest, i, pool =>
      pushPositive rest (i + 1) (if w.gt IEEE.epsilon then pool ++ [i] else pool)

/-- The method `setWeights (weights, directed_weights)`. -/
def setWeights (s : WeightedRandomSampleConsensus Base Cloud) (weights : List Double)
    (directed_weights : Bool) : VoidCall (WeightedRandomSampleConsensus Base Cloud) :=
  if weights.length ≠ s.full_cloud_pt_indices_.length then
    { ret := (), self := s, console := [setWeightsError] }
  else
    { ret := ()
      self :=
        { s with
          weights_ := weights
          model_pt_indices_ := pushPositive weights 0 []
          use_directed_weights_ := directed_weights }
      console := [] }

/-- The call `setWeights (weights)`: `directed_weights` takes its declared default `false`. -/
def setWeightsDefault (s : WeightedRandomSampleConsensus Base Cloud) (weights : List Double) :
    VoidCall (WeightedRandomSampleConsensus Base Cloud) :=
  setWeights s weights false

/-- In the words of the claims: the elements of `indices` at the positions where the weight
exceeds `threshold`, in order. -/
def subsequenceAbove (threshold : Double) (indices : List Nat) (weights : List Double) :
    List Nat :=
  ((indices.zip weights).filter (fun p => p.2.gt threshold)).map Prod.fst

end WeightedRandomSampleConsensus

/-! ## Face-detection application utilities -/

namespace face_detection_apps_utils

/-- The call `boost::split (result, input, boost::is_any_of (seps))` with the default
`token_compress_off`: the input is cut at every character of `seps`; an input with `n` such
characters gives `n + 1` tokens, the empty input gives one empty token. -/
def split (seps : List Char) : List Char → List (List Char)
  | [] => [[]]
  | c :: cs =>
      if c ∈ seps then [] :: split seps cs
      else
        match split seps cs with
        | [] => [[c]]
        | tok :: toks => (c :: tok) :: toks

/-- The expression `v.size () - 1` on a `std::vector` of `size` elements, in `std::size_t`
arithmetic. -/
def sizeMinusOne (size : Nat) : Nat := (size + 2 ^ 64 - 1) % 2 ^ 64

/-- The constant `std::string::npos`. -/
def npos : Nat := 2 ^ 64 - 1

/-- Search of `std::string::find`: `s` is what remains of the string from position `i` on. -/
def findFrom (pat : List Char) : List Char → Nat → Nat
  | [], i => if pat = [] then i else npos
  | c :: cs, i => if pat.isPrefixOf (c :: cs) then i else findFrom pat cs (i + 1)

/-- The call `s.find (pat)`: the position of the first occurrence of `pat` in `s`, or `npos`. -/
def find (s pat : List Char) : Nat := findFrom pat s 0

/-- The call `s.substr (pos, count)` for `pos` at most `s.size ()` (it is `0` below). -/
def substr (s : List Char) (pos count : Nat) : List Char := (s.drop pos).take count

/-- The function `sortFiles`, given the C library's `atoi` (applied to the `c_str ()` of its
argument). `none` stands for an out-of-bounds `operator[]`. -/
def sortFiles (atoi : List Char → Int) (file1 file2 : List Char) : Option Bool :=
  let strs1 := split ['/'] file1
  let strs2 := split ['/'] file2
  match strs1[sizeMinusOne strs1.length]?, strs2[sizeMinusOne strs2.length]? with
  | some id_1, some id_2 =>
      let strs1 := split ['_'] id_1
      let strs2 := split ['_'] id_2
      match strs1[sizeMinusOne strs1.length]?, strs2[sizeMinusOne strs2.length]? with
      | some id_1, some id_2 =>
          let pos1 := find id_1 ".pcd".toList
          let pos2 := find id_2 ".pcd".toList
          let id_1 := substr id_1 0 pos1
          let id_2 := substr id_2 0 pos2
          some (decide (atoi id_1 < atoi id_2))
      | _, _ => none
  | _, _ => none

/-- In the words of the claim: the text after the last `c` of `s` (all of `s` when it has no
`c`). -/
def afterLast (c : Char) (s : List Char) : List Char :=
  (s.reverse.takeWhile (fun x => x != c)).reverse

/-- In the words of the claim: `s` cut at the first occurrence of `pat` (all of `s` when `pat`
does not occur). -/
def cutAtFirst (pat : List Char) : List Char → List Char
  | [] => []
  | c :: cs => if pat <+: c :: cs then [] else c :: cutAtFirst pat cs

/-- In the words of the claim: the integer `atoi` reads from the text after the last `_` of the
part of `s` after its last `/`, cut at the first occurrence of `.pcd`. -/
def key (atoi : List Char → Int) (s : List Char) : Int :=
  atoi (cutAtFirst ".pcd".toList (afterLast '_' (afterLast '/' s)))

/-- The characters for which `isspace` holds in the C locale. -/
def isSpace (c : Char) : Bool :=
  c == ' ' || c == '\t' || c == '\n' || c == '\x0b' || c == '\x0c' || c == '\r'

/-- The decimal number spelled by the leading digits of `s`, continuing from `acc`. -/
def readDigits : List Char → Nat → Nat
  | [], acc => acc
  | c :: cs, acc => if c.isDigit then readDigits cs (10 * acc + (c.toNat - 48)) else acc

/-- A reference `atoi`, as in glibc (`(int) strtol (s, NULL, 10)`): leading white space, an
optional sign, then digits; the number is clamped to the range of `long` and reduced to 32 bits. -/
def atoiRef (s : List Char) : Int :=
  let t := s.dropWhile isSpace
  let v : Int :=
    match t with
    | '-' :: ds => - (readDigits ds 0 : Int)
    | '+' :: ds => (readDigits ds 0 : Int)
    | ds => (readDigits ds 0 : Int)
  let l : Int := max (-(2 ^ 63)) (min v (2 ^ 63 - 1))
  (l + 2 ^ 31) % 2 ^ 32 - 2 ^ 31

/-- The type `Eigen::Matrix4f`, read and written through `matrix (row, col)`. -/
abbrev Matrix4f := Fin 4 → Fin 4 → Float32

/-- The assignment `matrix (row, col) = v`. -/
def Matrix4f.assign (matrix : Matrix4f) (row col : Fin 4) (v : Float32) : Matrix4f :=
  fun r c => if r = row ∧ c = col then v else matrix r c

/-- The call `in.getline (linebuf, count)`: the characters stored in `linebuf` before the
terminating NUL. Extraction stops at the end of the stream, at a newline, or when `count - 1`
characters are stored. -/
def getline (stream : List Char) (count : Nat) : List Char :=
  (stream.takeWhile (fun c => c != '\n')).take (count - 1)

/-- The constructor `std::string (const char*)`: the characters before the first NUL. -/
def ofCString (buf : List Char) : List Char := buf.takeWhile (fun c => c != '\x00')

/-- The loop `for (int i = 0; i < 16; i++) matrix (i / 4, i % 4) = (float) atof (strs_2[i])`
from counter value `i` on. `none` stands for an out-of-bounds `strs_2[i]`. -/
def fillFrom (atof : List Char → Double) (toFloat : Double → Float32)
    (strs_2 : List (List Char)) (i : Nat) (matrix : Matrix4f) : Option Matrix4f :=
  if h : i < 16 then
    match strs_2[i]? with
    | none => none
    | some tok =>
        fillFrom atof toFloat strs_2 (i + 1)
          (matrix.assign ⟨i / 4, by omega⟩ ⟨i % 4, by omega⟩ (toFloat (atof tok)))
  else some matrix
termination_by 16 - i

/-- The function `readMatrixFromFile`. `fs path` is the content of the file that `in.open` opens,
`none` when it cannot be opened; `atof` is the C library function and `toFloat` the conversion
`static_cast<float>`. The result is the returned `bool` and the matrix after the call; `none`
stands for an out-of-bounds `operator[]`. -/
def readMatrixFromFile (fs : List Char → Option (List Char)) (atof : List Char → Double)
    (toFloat : Double → Float32) (file : List Char) (matrix : Matrix4f) :
    Option (Bool × Matrix4f) :=
  match fs file with
  | none => some (false, matrix)
  | some stream =>
      let linebuf := getline stream 1024
      let line := ofCString linebuf
      let strs_2 := split [' '] line
      match fillFrom atof toFloat strs_2 0 matrix with
      | none => none
      | some filled => some (true, filled)

/-- In the words of the claim: the first line of a file, the text before its first newline. -/
def firstLine (content : List Char) : List Char := content.takeWhile (fun c => c != '\n')

end face_detection_apps_utils

/-! ## Concrete objects used in the examples -/

/-- An estimator built over a one-point cloud whose model indexes point `0`. -/
def est0 : WeightedRandomSampleConsensus Unit Unit :=
  WeightedRandomSampleConsensus.construct () [0] () IEEE.nan

/-- An estimator whose model indexes only point `1` of its cloud. -/
def est1 : WeightedRandomSampleConsensus Unit Unit :=
  WeightedRandomSampleConsensus.construct () [1] () IEEE.nan

/-- The weight `2 ^ (-53)`: strictly positive and representable as a `double`. -/
def tinyWeight : Double := IEEE.finite 1 (-53)

/-- Three file names with the frame numbers 2, 10 and 33. -/
def frame2 : List Char := "run/cloud_2.pcd".toList

/-- See `frame2`. -/
def frame10 : List Char := "cloud_10.pcd".toList

/-- See `frame2`. -/
def frame33 : List Char := "other/run_b/scan_33.pcd".toList

/-- A first line of 16 tokens whose first token has 1023 characters. -/
def longFirstLine : List Char :=
  List.replicate 1023 '0' ++ ' ' :: "0 0 0 0 0 0 0 0 0 0 0 0 0 0 0".toList

/-- A file whose only line is `longFirstLine`. -/
def longLineFile : List Char := longFirstLine ++ ['\n']

/-- A file holding the identity matrix on its first line. -/
def identityFile : List Char := "1 0 0 0 0 1 0 0 0 0 1 0 0 0 0 1\n".toList

/-- The value of `atof` on a token that spells an integer of small size (no fraction, no
exponent): that integer. -/
def atofIntegral (tok : List Char) : Double := IEEE.finite (face_detection_apps_utils.atoiRef tok) 0

/-- The conversion `static_cast<float>` on the values a `float` represents exactly. -/
def toFloatExact (x : Double) : Float32 := x

/-- The estimator `est0` after `setWeights ([1.0])`. -/
def est0Weighted : WeightedRandomSampleConsensus Unit Unit :=
  (WeightedRandomSampleConsensus.setWeights est0 [IEEE.one] false).self

end PCL

/-! ## Lemmas on the floating-point comparison -/

namespace PCL

namespace IEEE

theorem scaled_cast (m e base : Int) (h : base ≤ e) :
    ((scaled m e base : Int) : ℚ) * (2 : ℚ) ^ base = (m : ℚ) * (2 : ℚ) ^ e := by
  unfold scaled
  push_cast
  have hnat : (((e - base).toNat : Nat) : Int) = e - base := Int.toNat_of_nonneg (by omega)
  rw [mul_assoc, ← zpow_natCast, hnat, ← zpow_add₀ (by norm_num : (2 : ℚ) ≠ 0)]
  congr 2
  ring

/-- On finite data `gt` is the order of the exact values. -/
theorem gt_finite_iff (m1 e1 m2 e2 : Int) :
    (finite m1 e1).gt (finite m2 e2) = true
      ↔ (m2 : ℚ) * (2 : ℚ) ^ e2 < (m1 : ℚ) * (2 : ℚ) ^ e1 := by
  simp only [gt, decide_eq_true_eq]
  rw [← scaled_cast m1 e1 (min e1 e2) (min_le_left _ _),
    ← scaled_cast m2 e2 (min e1 e2) (min_le_right _ _),
    mul_lt_mul_right (by positivity)]
  exact Int.cast_lt.symm

theorem gt_zero_of_gt_epsilon (x : IEEE) (h : x.gt epsilon = true) : x.gt zero = true := by
  cases x with
  | nan => simp [gt] at h
  | negInf => simp [gt, epsilon] at h
  | posInf => simp [gt, zero]
  | finite m e =>
    simp only [gt, epsilon, zero, scaled, decide_eq_true_eq, one_mul, zero_mul] at h ⊢
    have hp : (0 : Int) < 2 ^ (-52 - min e (-52)).toNat := by positivity
    have hq : (0 : Int) < 2 ^ (e - min e 0).toNat := by positivity
    have hr : (0 : Int) < 2 ^ (e - min e (-52)).toNat := by positivity
    have hm : 0 < m := by
      by_contra hn
      have : m * 2 ^ (e - min e (-52)).toNat ≤ 0 :=
        mul_nonpos_of_nonpos_of_nonneg (not_lt.mp hn) hr.le
      omega
    exact mul_pos hm hq

end IEEE

/-! ## Lemmas on the loop of `setWeights` -/

namespace WeightedRandomSampleConsensus

variable {Base Cloud : Type}

theorem pushPositive_eq (ws : List Double) (i : Nat) (pool : List Nat) :
    pushPositive ws i pool
      = pool ++ subsequenceAbove IEEE.epsilon (List.range' i ws.length) ws := by
  induction ws generalizing i pool with
  | nil => simp [pushPositive, subsequenceAbove]
  | cons w rest ih =>
    rw [pushPositive, ih]
    by_cases hw : w.gt IEEE.epsilon = true
    · simp [subsequenceAbove, List.range'_succ, hw, List.filter_cons]
    · simp [subsequenceAbove, List.range'_succ, hw, List.filter_cons]

theorem mem_subsequenceAbove_range' (t : Double) (ws : List Double) (i x : Nat) :
    x ∈ subsequenceAbove t (List.range' i ws.length) ws
      ↔ i ≤ x ∧ ∃ w, ws[x - i]? = some w ∧ w.gt t = true := by
  induction ws generalizing i with
  | nil => simp [subsequenceAbove]
  | cons w rest ih =>
    have ih1 := ih (i + 1)
    simp only [subsequenceAbove] at ih1 ⊢
    simp only [List.length_cons, List.range'_succ, List.zip_cons_cons, List.filter_cons]
    by_cases hw : w.gt t = true
    · simp only [hw, if_true, List.map_cons, List.mem_cons, ih1]
      constructor
      · rintro (rfl | ⟨hle, v, hv, hg⟩)
        · exact ⟨le_refl _, w, by simp, hw⟩
        · refine ⟨by omega, v, ?_, hg⟩
          have : x - i = (x - (i + 1)) + 1 := by omega
          rw [this]; simpa using hv
      · rintro ⟨hle, v, hv, hg⟩
        rcases Nat.eq_or_lt_of_le hle with h | h
        · exact Or.inl h.symm
        · refine Or.inr ⟨by omega, v, ?_, hg⟩
          have : x - i = (x - (i + 1)) + 1 := by omega
          rw [this] at hv; simpa using hv
    · simp only [hw, Bool.false_eq_true, if_false, ih1]
      constructor
      · rintro ⟨hle, v, hv, hg⟩
        refine ⟨by omega, v, ?_, hg⟩
        have : x - i = (x - (i + 1)) + 1 := by omega
        rw [this]; simpa using hv
      · rintro ⟨hle, v, hv, hg⟩
        rcases Nat.eq_or_lt_of_le hle with h | h
        · subst h
          simp at hv
          subst hv
          exact absurd hg hw
        · refine ⟨by omega, v, ?_, hg⟩
          have : x - i = (x - (i + 1)) + 1 := by omega
          rw [this] at hv; simpa using hv

theorem pool_eq (s : WeightedRandomSampleConsensus Base Cloud) (weights : List Double)
    (directed_weights : Bool) (h : weights.length = s.full_cloud_pt_indices_.length) :
    (setWeights s weights directed_weights).self.model_pt_indices_
      = subsequenceAbove IEEE.epsilon (List.range weights.length) weights := by
  simp [setWeights, h, pushPositive_eq, List.range_eq_range']

theorem mem_pool_iff (s : WeightedRandomSampleConsensus Base Cloud) (weights : List Double)
    (directed_weights : Bool) (h : weights.length = s.full_cloud_pt_indices_.length) (x : Nat) :
    x ∈ (setWeights s weights directed_weights).self.model_pt_indices_
      ↔ ∃ w, weights[x]? = some w ∧ w.gt IEEE.epsilon = true := by
  rw [pool_eq s weights directed_weights h, List.range_eq_range',
    mem_subsequenceAbove_range']
  simp

theorem subsequenceAbove_sublist (t : Double) (idx : List Nat) (ws : List Double) :
    (subsequenceAbove t idx ws).Sublist idx := by
  induction idx generalizing ws with
  | nil => simp [subsequenceAbove]
  | cons a rest ih =>
    cases ws with
    | nil => simp [subsequenceAbove]
    | cons w ws =>
      have ih1 := ih ws
      simp only [subsequenceAbove] at ih1 ⊢
      simp only [List.zip_cons_cons, List.filter_cons]
      split
      · simpa using ih1
      · exact ih1.trans (List.sublist_cons_self a rest)

end WeightedRandomSampleConsensus

/-! ## The estimator: claims about `setWeights` -/

open WeightedRandomSampleConsensus CPCSegmentation face_detection_apps_utils

/-- C1: when the weight vector's length differs from the size of `full_cloud_pt_indices_`,
`setWeights` leaves the whole estimator unchanged, in particular `weights_`, `model_pt_indices_`
and `use_directed_weights_`, whatever `directed_weights` is. -/
theorem setWeights_mismatch_unchanged {Base Cloud : Type}
    (s : WeightedRandomSampleConsensus Base Cloud) (weights : List Double)
    (directed_weights : Bool) (h : weights.length ≠ s.full_cloud_pt_indices_.length) :
    (setWeights s weights directed_weights).self = s
      ∧ (setWeights s weights directed_weights).self.weights_ = s.weights_
      ∧ (setWeights s weights directed_weights).self.model_pt_indices_ = s.model_pt_indices_
      ∧ (setWeights s weights directed_weights).self.use_directed_weights_
          = s.use_directed_weights_ := by
  simp [setWeights, h]

theorem setWeights_mismatch_unchanged_witness :
    ([] : List Double).length ≠ est0.full_cloud_pt_indices_.length
      ∧ (setWeights est0 [] true).self = est0 :=
  ⟨by decide, (setWeights_mismatch_unchanged est0 [] true (by decide)).1⟩

/-- C2, as stated, fails: the weight `2 ^ (-53)` is strictly positive, yet position `0` is not put
in the sampling pool. -/
theorem setWeights_tiny_positive_not_sampled :
    [tinyWeight].length = est0.full_cloud_pt_indices_.length
      ∧ tinyWeight.gt IEEE.zero = true
      ∧ 0 ∉ (setWeights est0 [tinyWeight] false).self.model_pt_indices_ := by
  decide

/-- C2, amended: for a weight vector of matching length, the sampling pool contains position `i`
if and only if `weights[i]` exceeds `std::numeric_limits<double>::epsilon ()`; every sampled
position has a strictly positive weight, and no position whose weight is not strictly positive
(zero, negative, NaN) is sampled. For a finite weight of value `m * 2 ^ e` the condition reads
`2 ^ (-52) < m * 2 ^ e`. -/
theorem setWeights_pool_iff_above_epsilon {Base Cloud : Type}
    (s : WeightedRandomSampleConsensus Base Cloud) (weights : List Double)
    (directed_weights : Bool) (h : weights.length = s.full_cloud_pt_indices_.length) (i : Nat) :
    (i ∈ (setWeights s weights directed_weights).self.model_pt_indices_
        ↔ ∃ w, weights[i]? = some w ∧ w.gt IEEE.epsilon = true)
      ∧ (i ∈ (setWeights s weights directed_weights).self.model_pt_indices_
        → ∃ w, weights[i]? = some w ∧ w.gt IEEE.zero = true)
      ∧ (∀ w, weights[i]? = some w → w.gt IEEE.zero = false
        → i ∉ (setWeights s weights directed_weights).self.model_pt_indices_)
      ∧ (∀ m e : Int, weights[i]? = some (IEEE.finite m e) →
          (i ∈ (setWeights s weights directed_weights).self.model_pt_indices_
            ↔ (2 : ℚ) ^ (-52 : Int) < (m : ℚ) * (2 : ℚ) ^ e)) := by
  have hiff := mem_pool_iff s weights directed_weights h i
  refine ⟨hiff, ?_, ?_, ?_⟩
  · intro hi
    obtain ⟨w, hw, hg⟩ := hiff.mp hi
    exact ⟨w, hw, IEEE.gt_zero_of_gt_epsilon w hg⟩
  · intro w hw hz hi
    obtain ⟨v, hv, hg⟩ := hiff.mp hi
    rw [hw] at hv
    cases hv
    rw [IEEE.gt_zero_of_gt_epsilon w hg] at hz
    exact absurd hz (by decide)
  · intro m e hw
    rw [hiff]
    have hval := IEEE.gt_finite_iff m e 1 (-52)
    rw [Int.cast_one, one_mul] at hval
    constructor
    · rintro ⟨w, hw', hg⟩
      rw [hw] at hw'
      cases hw'
      exact hval.mp hg
    · intro hlt
      exact ⟨_, hw, hval.mpr hlt⟩

theorem setWeights_pool_iff_above_epsilon_witness :
    [IEEE.one, tinyWeight].length = (est0.init [0, 1] ()).full_cloud_pt_indices_.length
      ∧ (0 ∈ (setWeights (est0.init [0, 1] ()) [IEEE.one, tinyWeight] false).self.model_pt_indices_
        ↔ ∃ w, [IEEE.one, tinyWeight][0]? = some w ∧ w.gt IEEE.epsilon = true)
      ∧ 0 ∈ (setWeights (est0.init [0, 1] ()) [IEEE.one, tinyWeight] false).self.model_pt_indices_
      ∧ (∃ w, [IEEE.one, tinyWeight][0]? = some w ∧ w.gt IEEE.zero = true)
      ∧ [IEEE.one, tinyWeight][1]? = some (IEEE.finite 1 (-53))
      ∧ (1 ∈ (setWeights (est0.init [0, 1] ()) [IEEE.one, tinyWeight] false).self.model_pt_indices_
        ↔ (2 : ℚ) ^ (-52 : Int) < ((1 : Int) : ℚ) * (2 : ℚ) ^ (-53 : Int)) :=
  ⟨by decide,
    (setWeights_pool_iff_above_epsilon (est0.init [0, 1] ()) [IEEE.one, tinyWeight] false
      (by decide) 0).1,
    by decide,
    (setWeights_pool_iff_above_epsilon (est0.init [0, 1] ()) [IEEE.one, tinyWeight] false
      (by decide) 0).2.1 (by decide),
    rfl,
    (setWeights_pool_iff_above_epsilon (est0.init [0, 1] ()) [IEEE.one, tinyWeight] false
      (by decide) 1).2.2.2 1 (-53) rfl⟩

/-- C3, as stated, fails: on `est0Weighted` the wrong-length call `setWeights ([])` and the
accepted call `setWeights ([1.0])` return the same (`void`) result and leave the same object. -/
theorem setWeights_rejection_not_returned :
    ([] : List Double).length ≠ est0Weighted.full_cloud_pt_indices_.length
      ∧ [IEEE.one].length = est0Weighted.full_cloud_pt_indices_.length
      ∧ (setWeights est0Weighted [] false).ret = (setWeights est0Weighted [IEEE.one] false).ret
      ∧ (setWeights est0Weighted [] false).self
          = (setWeights est0Weighted [IEEE.one] false).self :=
  ⟨by decide, by decide, rfl, rfl⟩

/-- C3, amended: `setWeights` returns nothing (`void`), for a rejected call as for an accepted
one; a call with a weight vector of the wrong length leaves the estimator unchanged and passes one
error message to `PCL_ERROR`, and a call with a vector of the right length passes none. -/
theorem setWeights_rejection_only_logged {Base Cloud : Type}
    (s : WeightedRandomSampleConsensus Base Cloud) (weights : List Double)
    (directed_weights : Bool) :
    (setWeights s weights directed_weights).ret = ()
      ∧ (weights.length ≠ s.full_cloud_pt_indices_.length
        → (setWeights s weights directed_weights).self = s
          ∧ (setWeights s weights directed_weights).console = [setWeightsError])
      ∧ (weights.length = s.full_cloud_pt_indices_.length
        → (setWeights s weights directed_weights).console = []) := by
  refine ⟨rfl, ?_, ?_⟩
  · intro h
    simp [setWeights, h]
  · intro h
    simp [setWeights, h]

theorem setWeights_rejection_only_logged_witness :
    (([] : List Double).length ≠ est0.full_cloud_pt_indices_.length
        ∧ (setWeights est0 [] false).console = [setWeightsError])
      ∧ ([IEEE.one].length = est0.full_cloud_pt_indices_.length
        ∧ (setWeights est0 [IEEE.one] false).console = []) :=
  ⟨⟨by decide, ((setWeights_rejection_only_logged est0 [] false).2.1 (by decide)).2⟩,
    ⟨by decide, (setWeights_rejection_only_logged est0 [IEEE.one] false).2.2 (by decide)⟩⟩

/-- C4: for a weight vector of matching length, `setWeights` leaves `full_cloud_pt_indices_`
unchanged and stores the argument verbatim in `weights_`, element for element, so `weights_` and
the scoring pool have the same length; zero, negative and NaN weights are kept. -/
theorem setWeights_keeps_scoring_pool {Base Cloud : Type}
    (s : WeightedRandomSampleConsensus Base Cloud) (weights : List Double)
    (directed_weights : Bool) (h : weights.length = s.full_cloud_pt_indices_.length) :
    (setWeights s weights directed_weights).self.full_cloud_pt_indices_
        = s.full_cloud_pt_indices_
      ∧ (setWeights s weights directed_weights).self.weights_ = weights
      ∧ (∀ i : Nat, (setWeights s weights directed_weights).self.weights_[i]? = weights[i]?)
      ∧ (setWeights s weights directed_weights).self.weights_.length
          = (setWeights s weights directed_weights).self.full_cloud_pt_indices_.length := by
  simp [setWeights, h]

theorem setWeights_keeps_scoring_pool_witness :
    [IEEE.zero, IEEE.finite (-3) 0, IEEE.nan].length
        = (est0.init [4, 2, 9] ()).full_cloud_pt_indices_.length
      ∧ (setWeights (est0.init [4, 2, 9] ()) [IEEE.zero, IEEE.finite (-3) 0, IEEE.nan]
          true).self.full_cloud_pt_indices_ = [4, 2, 9]
      ∧ (setWeights (est0.init [4, 2, 9] ()) [IEEE.zero, IEEE.finite (-3) 0, IEEE.nan]
          true).self.weights_ = [IEEE.zero, IEEE.finite (-3) 0, IEEE.nan] :=
  ⟨by decide,
    (setWeights_keeps_scoring_pool (est0.init [4, 2, 9] ())
      [IEEE.zero, IEEE.finite (-3) 0, IEEE.nan] true (by decide)).1,
    (setWeights_keeps_scoring_pool (est0.init [4, 2, 9] ())
      [IEEE.zero, IEEE.finite (-3) 0, IEEE.nan] true (by decide)).2.1⟩

theorem subsequenceAbove_range_nodup (t : Double) (ws : List Double) (n : Nat) :
    (subsequenceAbove t (List.range n) ws).Nodup :=
  (subsequenceAbove_sublist t (List.range n) ws).nodup (List.nodup_range n)

/-- C7: weights do not persist across calls. For weight vectors `w1`, `w2` of matching length,
`setWeights (w1, d1)` followed by `setWeights (w2, d2)` leaves the same estimator as
`setWeights (w2, d2)` alone; the sampling pool is then the duplicate-free list of the positions of
`w2` above epsilon, and a second call that omits the flag leaves `use_directed_weights_` false. -/
theorem setWeights_overwrites {Base Cloud : Type}
    (s : WeightedRandomSampleConsensus Base Cloud) (w1 w2 : List Double) (d1 d2 : Bool)
    (h1 : w1.length = s.full_cloud_pt_indices_.length)
    (h2 : w2.length = s.full_cloud_pt_indices_.length) :
    (setWeights (setWeights s w1 d1).self w2 d2).self = (setWeights s w2 d2).self
      ∧ (setWeights (setWeights s w1 d1).self w2 d2).self.model_pt_indices_
          = subsequenceAbove IEEE.epsilon (List.range w2.length) w2
      ∧ (setWeights (setWeights s w1 d1).self w2 d2).self.model_pt_indices_.Nodup
      ∧ (setWeightsDefault (setWeights s w1 d1).self w2).self.use_directed_weights_ = false := by
  have hfull : (setWeights s w1 d1).self.full_cloud_pt_indices_ = s.full_cloud_pt_indices_ := by
    simp [setWeights, h1]
  have h2' : w2.length = (setWeights s w1 d1).self.full_cloud_pt_indices_.length := by
    rw [hfull]; exact h2
  have hpool := pool_eq (setWeights s w1 d1).self w2 d2 h2'
  refine ⟨?_, hpool, ?_, ?_⟩
  · simp [setWeights, h1, h2]
  · rw [hpool]
    exact subsequenceAbove_range_nodup _ _ _
  · simp [setWeightsDefault, setWeights, h1, h2]

theorem setWeights_overwrites_witness :
    [IEEE.one].length = est0.full_cloud_pt_indices_.length
      ∧ [IEEE.zero].length = est0.full_cloud_pt_indices_.length
      ∧ (setWeights (setWeights est0 [IEEE.one] true).self [IEEE.zero] false).self
          = (setWeights est0 [IEEE.zero] false).self :=
  ⟨by decide, by decide,
    (setWeights_overwrites est0 [IEEE.one] [IEEE.zero] true false (by decide) (by decide)).1⟩

/-- C8, as stated, fails: over a model that indexes only point `1`, `setWeights ([1.0])` puts `0`
in the sampling pool, which is not an element of the scoring pool `[1]`; and over the identity
index list `[0]` the positive weight `2 ^ (-53)` leaves the sampling pool empty. -/
theorem setWeights_sampled_index_not_in_scoring_pool :
    [IEEE.one].length = est1.full_cloud_pt_indices_.length
      ∧ (setWeights est1 [IEEE.one] false).self.full_cloud_pt_indices_ = [1]
      ∧ (setWeights est1 [IEEE.one] false).self.model_pt_indices_ = [0]
      ∧ 0 ∉ (setWeights est1 [IEEE.one] false).self.full_cloud_pt_indices_
      ∧ (setWeights est1 [IEEE.one] false).self.model_pt_indices_
          ≠ subsequenceAbove IEEE.zero est1.full_cloud_pt_indices_ [IEEE.one]
      ∧ (setWeights est0 [tinyWeight] false).self.model_pt_indices_
          ≠ subsequenceAbove IEEE.zero est0.full_cloud_pt_indices_ [tinyWeight] := by
  decide

/-- C8, amended: for a weight vector of matching length, the sampling pool is the list of the
positions (not of the elements of `full_cloud_pt_indices_`) whose weight exceeds epsilon, in
increasing order; each is a valid position of the scoring pool. When `full_cloud_pt_indices_` is
the identity list `0, ..., n-1`, the sampling pool is its sub-sequence at those positions and every
sampled index is an element of the scoring pool. -/
theorem setWeights_pool_positions {Base Cloud : Type}
    (s : WeightedRandomSampleConsensus Base Cloud) (weights : List Double)
    (directed_weights : Bool) (h : weights.length = s.full_cloud_pt_indices_.length) :
    (setWeights s weights directed_weights).self.model_pt_indices_
        = subsequenceAbove IEEE.epsilon (List.range s.full_cloud_pt_indices_.length) weights
      ∧ (∀ x ∈ (setWeights s weights directed_weights).self.model_pt_indices_,
          x < (setWeights s weights directed_weights).self.full_cloud_pt_indices_.length
            ∧ ∃ w, weights[x]? = some w ∧ w.gt IEEE.epsilon = true)
      ∧ (s.full_cloud_pt_indices_ = List.range s.full_cloud_pt_indices_.length →
          (setWeights s weights directed_weights).self.model_pt_indices_
              = subsequenceAbove IEEE.epsilon
                  (setWeights s weights directed_weights).self.full_cloud_pt_indices_ weights
            ∧ ((setWeights s weights directed_weights).self.model_pt_indices_).Sublist
                (setWeights s weights directed_weights).self.full_cloud_pt_indices_
            ∧ ∀ x ∈ (setWeights s weights directed_weights).self.model_pt_indices_,
                x ∈ (setWeights s weights directed_weights).self.full_cloud_pt_indices_) := by
  have hpool := pool_eq s weights directed_weights h
  have hfull : (setWeights s weights directed_weights).self.full_cloud_pt_indices_
      = s.full_cloud_pt_indices_ := by
    simp [setWeights, h]
  refine ⟨by rw [hpool, h], ?_, ?_⟩
  · intro x hx
    obtain ⟨w, hw, hg⟩ := (mem_pool_iff s weights directed_weights h x).mp hx
    refine ⟨?_, w, hw, hg⟩
    rw [hfull, ← h]
    exact (List.getElem?_eq_some.mp hw).1
  · intro hid
    have hsub : ((setWeights s weights directed_weights).self.model_pt_indices_).Sublist
        (setWeights s weights directed_weights).self.full_cloud_pt_indices_ := by
      rw [hfull, hpool, h]
      conv_rhs => rw [hid]
      exact subsequenceAbove_sublist _ _ _
    refine ⟨?_, hsub, fun x hx => hsub.subset hx⟩
    rw [hfull, hpool, h]
    conv_rhs => rw [hid]

theorem setWeights_pool_positions_witness :
    [tinyWeight, IEEE.one].length = (est0.init [0, 1] ()).full_cloud_pt_indices_.length
      ∧ (est0.init [0, 1] ()).full_cloud_pt_indices_
          = List.range (est0.init [0, 1] ()).full_cloud_pt_indices_.length
      ∧ ((setWeights (est0.init [0, 1] ()) [tinyWeight, IEEE.one] false).self.model_pt_indices_
          ).Sublist
          (setWeights (est0.init [0, 1] ()) [tinyWeight, IEEE.one] false).self.full_cloud_pt_indices_ :=
  ⟨by decide, by decide,
    ((setWeights_pool_positions (est0.init [0, 1] ()) [tinyWeight, IEEE.one] false
      (by decide)).2.2 (by decide)).2.1⟩

/-! ## The driver: claims about the cutting parameters -/

/-- The `float` that `0.16` converts to has a 24-bit significand and lies within half a unit in
the last place (`2 ^ (-27)`) of `0.16`. -/
theorem IEEE.lit_0_16_nearest :
    (2 : Int) ^ 23 ≤ 10737418 ∧ (10737418 : Int) < 2 ^ 24
      ∧ ∃ q : ℚ, IEEE.lit_0_16.toRat = some q ∧ |q - 16 / 100| < 1 / 2 ^ 27 := by
  refine ⟨by norm_num, by norm_num, (10737418 : ℚ) * (2 : ℚ) ^ (-26 : Int), ?_, ?_⟩
  · simp [IEEE.lit_0_16, IEEE.toRat]
  · rw [abs_lt]
    constructor <;> norm_num [zpow_neg]

/-- C5: a freshly constructed `CPCSegmentation` has `max_cuts_ = 20`,
`min_segment_size_for_cutting_ = 400`, `min_cut_score_ = 0.16` (as a `float`),
`use_local_constrains_ = true`, `use_directed_weights_ = true`, `use_clean_cutting_ = false` and
`ransac_itrs_ = 10000`; `setCutting ()` on it gives the same configuration except that
`min_segment_size_for_cutting_` becomes `0`. -/
theorem configuration_defaults {LCCP : Type} (lccp : LCCP) :
    (fresh lccp).max_cuts_ = 20
      ∧ (fresh lccp).min_segment_size_for_cutting_ = 400
      ∧ (fresh lccp).min_cut_score_ = IEEE.lit_0_16
      ∧ (∃ q : ℚ, (fresh lccp).min_cut_score_.toRat = some q ∧ |q - 16 / 100| < 1 / 2 ^ 27)
      ∧ (fresh lccp).use_local_constrains_ = true
      ∧ (fresh lccp).use_directed_weights_ = true
      ∧ (fresh lccp).use_clean_cutting_ = false
      ∧ (fresh lccp).ransac_itrs_ = 10000
      ∧ setCuttingDefault (fresh lccp)
          = { fresh lccp with min_segment_size_for_cutting_ := 0 }
      ∧ (setCuttingDefault (fresh lccp)).min_segment_size_for_cutting_ = 0
      ∧ (setCuttingDefault (fresh lccp)).min_segment_size_for_cutting_
          ≠ (fresh lccp).min_segment_size_for_cutting_ :=
  ⟨rfl, rfl, rfl, IEEE.lit_0_16_nearest.2.2, rfl, rfl, rfl, rfl, rfl, rfl,
    by simp [setCuttingDefault, setCutting, fresh]⟩

/-- C6: `setCutting` sets exactly the six cutting fields to its arguments and leaves
`ransac_itrs_` (and the inherited state) unchanged; `setRANSACIterations (n)` sets `ransac_itrs_`
to `n` and leaves the six cutting fields (and the inherited state) unchanged; the two setters
commute and each is last-write-wins. -/
theorem setCutting_setRANSACIterations_frame {LCCP : Type} (s : CPCSegmentation LCCP)
    (max_cuts cutting_min_segments : Nat) (cutting_min_score : Float32)
    (locally_constrained directed_cutting clean_cutting : Bool) (n : Nat) :
    (setCutting s max_cuts cutting_min_segments cutting_min_score locally_constrained
        directed_cutting clean_cutting
        = { lccp := s.lccp
            max_cuts_ := max_cuts
            min_segment_size_for_cutting_ := cutting_min_segments
            min_cut_score_ := cutting_min_score
            use_local_constrains_ := locally_constrained
            use_directed_weights_ := directed_cutting
            use_clean_cutting_ := clean_cutting
            ransac_itrs_ := s.ransac_itrs_ })
      ∧ (setRANSACIterations s n
        = { lccp := s.lccp
            max_cuts_ := s.max_cuts_
            min_segment_size_for_cutting_ := s.min_segment_size_for_cutting_
            min_cut_score_ := s.min_cut_score_
            use_local_constrains_ := s.use_local_constrains_
            use_directed_weights_ := s.use_directed_weights_
            use_clean_cutting_ := s.use_clean_cutting_
            ransac_itrs_ := n })
      ∧ (setRANSACIterations
            (setCutting s max_cuts cutting_min_segments cutting_min_score locally_constrained
              directed_cutting clean_cutting) n
          = setCutting (setRANSACIterations s n) max_cuts cutting_min_segments cutting_min_score
              locally_constrained directed_cutting clean_cutting)
      ∧ (∀ (max_cuts0 cutting_min_segments0 : Nat) (cutting_min_score0 : Float32)
            (locally_constrained0 directed_cutting0 clean_cutting0 : Bool),
          setCutting
              (setCutting s max_cuts0 cutting_min_segments0 cutting_min_score0
                locally_constrained0 directed_cutting0 clean_cutting0)
              max_cuts cutting_min_segments cutting_min_score locally_constrained
              directed_cutting clean_cutting
            = setCutting s max_cuts cutting_min_segments cutting_min_score locally_constrained
                directed_cutting clean_cutting)
      ∧ (∀ n0 : Nat, setRANSACIterations (setRANSACIterations s n0) n
            = setRANSACIterations s n) :=
  ⟨rfl, rfl, rfl, fun _ _ _ _ _ _ => rfl, fun _ => rfl⟩

/-! ## Lemmas on splitting and searching strings -/

namespace face_detection_apps_utils

theorem split_ne_nil (seps s : List Char) : split seps s ≠ [] := by
  cases s with
  | nil => simp [split]
  | cons c cs =>
    rw [split]
    split
    · simp
    · split <;> simp

theorem split_length_le (seps s : List Char) : (split seps s).length ≤ s.length + 1 := by
  induction s with
  | nil => simp [split]
  | cons c cs ih =>
    rw [split]
    split
    · simpa using ih
    · split
      · simp
      · rename_i tok toks heq
        rw [heq] at ih
        simp only [List.length_cons] at ih ⊢
        omega

theorem split_of_not_mem (c : Char) (s : List Char) (h : c ∉ s) : split [c] s = [s] := by
  induction s with
  | nil => simp [split]
  | cons x xs ih =>
    have hx : x ≠ c := fun e => h (by simp [e])
    have hxs : c ∉ xs := fun e => h (by simp [e])
    rw [split, ih hxs]
    simp [hx]

theorem split_append_sep (seps pre t : List Char) (c : Char) (hc : c ∈ seps) :
    split seps (pre ++ c :: t) = split seps pre ++ split seps t := by
  induction pre with
  | nil => simp [split, hc]
  | cons x xs ih =>
    simp only [List.cons_append]
    rw [split, split, ih]
    by_cases hx : x ∈ seps
    · simp [hx]
    · simp only [hx, if_false]
      cases hsp : split seps xs with
      | nil => exact absurd hsp (split_ne_nil seps xs)
      | cons tok toks => simp

theorem afterLast_decompose (c : Char) (s : List Char) :
    c ∉ afterLast c s
      ∧ ((c ∉ s ∧ afterLast c s = s) ∨ ∃ pre, s = pre ++ c :: afterLast c s) := by
  have hnot : c ∉ afterLast c s := by
    intro hmem
    have h1 : c ∈ s.reverse.takeWhile (fun x => x != c) := by
      simpa [afterLast] using hmem
    have h2 := List.mem_takeWhile_imp h1
    simp at h2
  refine ⟨hnot, ?_⟩
  have hsplit := List.takeWhile_append_dropWhile (fun x => x != c) s.reverse
  cases hd : s.reverse.dropWhile (fun x => x != c) with
  | nil =>
    left
    rw [hd, List.append_nil] at hsplit
    have hs : afterLast c s = s := by
      simp [afterLast, hsplit]
    exact ⟨hs ▸ hnot, hs⟩
  | cons d rest =>
    right
    have hne : s.reverse.dropWhile (fun x => x != c) ≠ [] := by simp [hd]
    have hhead := List.head_dropWhile_not (fun x => x != c) s.reverse hne
    simp only [hd, List.head_cons] at hhead
    have hdc : d = c := by simpa using hhead
    refine ⟨rest.reverse, ?_⟩
    rw [hd, hdc] at hsplit
    have := congrArg List.reverse hsplit
    simp only [List.reverse_append, List.reverse_cons, List.reverse_reverse,
      List.append_assoc, List.singleton_append] at this
    rw [afterLast]
    exact this.symm

theorem split_getLast? (c : Char) (s : List Char) :
    (split [c] s).getLast? = some (afterLast c s) := by
  obtain ⟨hnot, h | ⟨pre, hpre⟩⟩ := afterLast_decompose c s
  · rw [split_of_not_mem c s h.1, h.2]
    rfl
  · conv_lhs => rw [hpre]
    rw [split_append_sep [c] pre (afterLast c s) c (by simp),
      split_of_not_mem c _ hnot]
    simp

theorem afterLast_length_le (c : Char) (s : List Char) : (afterLast c s).length ≤ s.length := by
  have h := ((List.takeWhile_sublist (fun x => x != c) : (s.reverse.takeWhile _).Sublist _)).length_le
  simpa [afterLast] using h

theorem sizeMinusOne_eq (n : Nat) (h0 : 0 < n) (h : n < 2 ^ 64) : sizeMinusOne n = n - 1 := by
  unfold sizeMinusOne
  norm_num at h ⊢
  omega

theorem split_last_token (c : Char) (s : List Char) (h : s.length < npos) :
    (split [c] s)[sizeMinusOne (split [c] s).length]? = some (afterLast c s) := by
  have hpos : 0 < (split [c] s).length := List.length_pos.mpr (split_ne_nil [c] s)
  have hle := split_length_le [c] s
  have hlt : (split [c] s).length < 2 ^ 64 := by
    unfold npos at h
    norm_num at h ⊢
    omega
  rw [sizeMinusOne_eq _ hpos hlt, ← List.getLast?_eq_getElem?, split_getLast?]

theorem findFrom_spec (pat s : List Char) (i : Nat) (h : i + s.length ≤ npos) :
    i ≤ findFrom pat s i ∧ s.take (findFrom pat s i - i) = cutAtFirst pat s := by
  induction s generalizing i with
  | nil =>
    rw [findFrom]
    split
    · simp [cutAtFirst]
    · simp only [List.length_nil, Nat.add_zero] at h
      simp [cutAtFirst, h]
  | cons c cs ih =>
    rw [findFrom, cutAtFirst]
    by_cases hp : pat <+: c :: cs
    · simp [hp]
    · have hp0 : pat.isPrefixOf (c :: cs) = false := by
        rw [← Bool.not_eq_true, List.isPrefixOf_iff_prefix]
        exact hp
      simp only [hp0, Bool.false_eq_true, if_false, hp]
      simp only [List.length_cons] at h
      obtain ⟨hle, htake⟩ := ih (i + 1) (by omega)
      refine ⟨by omega, ?_⟩
      have : findFrom pat cs (i + 1) - i = (findFrom pat cs (i + 1) - (i + 1)) + 1 := by omega
      rw [this, List.take_succ_cons, htake]

theorem substr_find (pat s : List Char) (h : s.length ≤ npos) :
    substr s 0 (find s pat) = cutAtFirst pat s := by
  have := (findFrom_spec pat s 0 (by simpa using h)).2
  simpa [substr, find] using this

theorem sortFiles_eq_key (atoi : List Char → Int) (a b : List Char)
    (ha : a.length < npos) (hb : b.length < npos) :
    sortFiles atoi a b = some (decide (key atoi a < key atoi b)) := by
  have ha1 := afterLast_length_le '/' a
  have hb1 := afterLast_length_le '/' b
  have ha2 := afterLast_length_le '_' (afterLast '/' a)
  have hb2 := afterLast_length_le '_' (afterLast '/' b)
  simp only [sortFiles, key]
  rw [split_last_token '/' a ha, split_last_token '/' b hb]
  simp only []
  rw [split_last_token '_' _ (by omega), split_last_token '_' _ (by omega)]
  simp only []
  rw [substr_find _ _ (by omega), substr_find _ _ (by omega)]

theorem afterLast_append_sep (c : Char) (pre t : List Char) (h : c ∉ t) :
    afterLast c (pre ++ c :: t) = t := by
  have h1 := split_getLast? c (pre ++ c :: t)
  rw [split_append_sep [c] pre t c (by simp), split_of_not_mem c t h] at h1
  simpa using h1.symm

end face_detection_apps_utils

/-! ## The utilities: claims about `sortFiles` -/

/-- C9: for every `atoi` and all strings (of a length a `std::string` can have, below `npos`),
`sortFiles` never indexes out of bounds and returns whether `key file1 < key file2`, where `key`
is the integer `atoi` reads from the text after the last `_` of the part after the last `/`, cut
at the first `.pcd`. Hence it is irreflexive and transitive, incomparability is transitive, and
two paths with the same text after the last `_` of the file name (whatever their directory part
and the text before that `_`) are not ordered before one another; the empty string is handled. -/
theorem sortFiles_strict_weak_ordering (atoi : List Char → Int) :
    (∀ a b : List Char, a.length < npos → b.length < npos →
        sortFiles atoi a b = some (decide (key atoi a < key atoi b)))
      ∧ (∀ a : List Char, a.length < npos → sortFiles atoi a a = some false)
      ∧ (∀ a b c : List Char, a.length < npos → b.length < npos → c.length < npos →
          sortFiles atoi a b = some true → sortFiles atoi b c = some true →
          sortFiles atoi a c = some true)
      ∧ (∀ a b c : List Char, a.length < npos → b.length < npos → c.length < npos →
          sortFiles atoi a b = some false → sortFiles atoi b a = some false →
          sortFiles atoi b c = some false → sortFiles atoi c b = some false →
          sortFiles atoi a c = some false ∧ sortFiles atoi c a = some false)
      ∧ (∀ a b : List Char, a.length < npos → b.length < npos →
          afterLast '_' (afterLast '/' a) = afterLast '_' (afterLast '/' b) →
          sortFiles atoi a b = some false ∧ sortFiles atoi b a = some false)
      ∧ (∀ dir1 dir2 stem1 stem2 tail : List Char,
          '/' ∉ stem1 → '/' ∉ stem2 → '/' ∉ tail → '_' ∉ tail →
          (dir1 ++ '/' :: (stem1 ++ '_' :: tail)).length < npos →
          (dir2 ++ '/' :: (stem2 ++ '_' :: tail)).length < npos →
          sortFiles atoi (dir1 ++ '/' :: (stem1 ++ '_' :: tail))
              (dir2 ++ '/' :: (stem2 ++ '_' :: tail)) = some false)
      ∧ sortFiles atoi [] [] = some false := by
  have hkey : ∀ a b : List Char, a.length < npos → b.length < npos →
      afterLast '_' (afterLast '/' a) = afterLast '_' (afterLast '/' b) →
      sortFiles atoi a b = some false := by
    intro a b ha hb hab
    rw [sortFiles_eq_key atoi a b ha hb]
    simp [key, hab]
  refine ⟨sortFiles_eq_key atoi, ?_, ?_, ?_, ?_, ?_, ?_⟩
  · intro a ha
    exact hkey a a ha ha rfl
  · intro a b c ha hb hc hab hbc
    rw [sortFiles_eq_key atoi a b ha hb] at hab
    rw [sortFiles_eq_key atoi b c hb hc] at hbc
    rw [sortFiles_eq_key atoi a c ha hc]
    simp only [Option.some.injEq, decide_eq_true_eq] at hab hbc ⊢
    exact lt_trans hab hbc
  · intro a b c ha hb hc hab hba hbc hcb
    rw [sortFiles_eq_key atoi a b ha hb] at hab
    rw [sortFiles_eq_key atoi b a hb ha] at hba
    rw [sortFiles_eq_key atoi b c hb hc] at hbc
    rw [sortFiles_eq_key atoi c b hc hb] at hcb
    rw [sortFiles_eq_key atoi a c ha hc, sortFiles_eq_key atoi c a hc ha]
    simp only [Option.some.injEq, decide_eq_false_iff_not, not_lt] at hab hba hbc hcb ⊢
    omega
  · intro a b ha hb hab
    exact ⟨hkey a b ha hb hab, hkey b a hb ha hab.symm⟩
  · intro dir1 dir2 stem1 stem2 tail h1 h2 h3 h4 hl1 hl2
    apply hkey _ _ hl1 hl2
    have e1 : afterLast '/' (dir1 ++ '/' :: (stem1 ++ '_' :: tail)) = stem1 ++ '_' :: tail :=
      afterLast_append_sep '/' dir1 _ (by simp [h1, h3])
    have e2 : afterLast '/' (dir2 ++ '/' :: (stem2 ++ '_' :: tail)) = stem2 ++ '_' :: tail :=
      afterLast_append_sep '/' dir2 _ (by simp [h2, h3])
    rw [e1, e2, afterLast_append_sep '_' stem1 tail h4, afterLast_append_sep '_' stem2 tail h4]
  · exact hkey [] [] (by decide) (by decide) rfl

theorem sortFiles_strict_weak_ordering_witness :
    (frame2.length < npos ∧ frame10.length < npos ∧ frame33.length < npos)
      ∧ (sortFiles atoiRef frame2 frame10 = some true
        ∧ sortFiles atoiRef frame10 frame33 = some true)
      ∧ sortFiles atoiRef frame2 frame33 = some true
      ∧ sortFiles atoiRef frame10 frame2
          = some (decide (key atoiRef frame10 < key atoiRef frame2))
      ∧ sortFiles atoiRef frame33 frame33 = some false
      ∧ sortFiles atoiRef "a/b/x_7.pcd".toList "c/yy_7.pcd".toList = some false
      ∧ (afterLast '_' (afterLast '/' frame2) = afterLast '_' (afterLast '/' "x/y_2.pcd".toList)
        ∧ sortFiles atoiRef frame2 "x/y_2.pcd".toList = some false
        ∧ sortFiles atoiRef "x/y_2.pcd".toList frame2 = some false)
      ∧ (sortFiles atoiRef frame2 "x/y_2".toList = some false
        ∧ sortFiles atoiRef "x/y_2".toList frame2 = some false
        ∧ sortFiles atoiRef "x/y_2".toList "2.pcd".toList = some false
        ∧ sortFiles atoiRef "2.pcd".toList "x/y_2".toList = some false
        ∧ sortFiles atoiRef frame2 "2.pcd".toList = some false
        ∧ sortFiles atoiRef "2.pcd".toList frame2 = some false) :=
  ⟨⟨by decide, by decide, by decide⟩, ⟨by decide, by decide⟩,
    (sortFiles_strict_weak_ordering atoiRef).2.2.1 frame2 frame10 frame33
      (by decide) (by decide) (by decide) (by decide) (by decide),
    (sortFiles_strict_weak_ordering atoiRef).1 frame10 frame2 (by decide) (by decide),
    (sortFiles_strict_weak_ordering atoiRef).2.1 frame33 (by decide),
    (sortFiles_strict_weak_ordering atoiRef).2.2.2.2.2.1 "a/b".toList "c".toList "x".toList
      "yy".toList "7.pcd".toList (by decide) (by decide) (by decide) (by decide) (by decide)
      (by decide),
    ⟨by decide,
      (sortFiles_strict_weak_ordering atoiRef).2.2.2.2.1 frame2 "x/y_2.pcd".toList
        (by decide) (by decide) (by decide)⟩,
    ⟨by decide, by decide, by decide, by decide,
      (sortFiles_strict_weak_ordering atoiRef).2.2.2.1 frame2 "x/y_2".toList "2.pcd".toList
        (by decide) (by decide) (by decide) (by decide) (by decide) (by decide) (by decide)⟩⟩

/-! ## The utilities: claims about `readMatrixFromFile` -/

namespace face_detection_apps_utils

theorem fillFrom_some (atof : List Char → Double) (toFloat : Double → Float32)
    (strs : List (List Char)) (h16 : 16 ≤ strs.length) (k : Nat) :
    ∀ (i : Nat) (matrix : Matrix4f), i + k = 16 →
      ∃ filled, fillFrom atof toFloat strs i matrix = some filled
        ∧ ∀ r c : Fin 4,
            (4 * r.val + c.val < i → filled r c = matrix r c)
            ∧ (i ≤ 4 * r.val + c.val →
                ∃ tok, strs[4 * r.val + c.val]? = some tok ∧ filled r c = toFloat (atof tok)) := by
  induction k with
  | zero =>
    intro i matrix hi
    have : i = 16 := by omega
    subst this
    refine ⟨matrix, by rw [fillFrom]; simp, ?_⟩
    intro r c
    refine ⟨fun _ => rfl, fun h => ?_⟩
    have := r.isLt
    have := c.isLt
    omega
  | succ k ih =>
    intro i matrix hi
    have hlt : i < 16 := by omega
    obtain ⟨tok, hget⟩ : ∃ tok, strs[i]? = some tok :=
      ⟨strs[i], List.getElem?_eq_getElem (by omega)⟩
    obtain ⟨filled, hf, hspec⟩ := ih (i + 1)
      (matrix.assign ⟨i / 4, by omega⟩ ⟨i % 4, by omega⟩ (toFloat (atof tok))) (by omega)
    refine ⟨filled, ?_, ?_⟩
    · rw [fillFrom]
      simp only [hlt, dite_true, hget]
      exact hf
    · intro r c
      have hr := r.isLt
      have hc := c.isLt
      obtain ⟨hlow, hhigh⟩ := hspec r c
      constructor
      · intro h
        rw [hlow (by omega)]
        have hne : ¬ (r = ⟨i / 4, by omega⟩ ∧ c = ⟨i % 4, by omega⟩) := by
          rintro ⟨e1, e2⟩
          have e1' := congrArg Fin.val e1
          have e2' := congrArg Fin.val e2
          simp only at e1' e2'
          omega
        simp [Matrix4f.assign, hne]
      · intro h
        rcases Nat.eq_or_lt_of_le h with heq | hgt
        · refine ⟨tok, by rw [← heq]; exact hget, ?_⟩
          rw [hlow (by omega)]
          have e1 : r = ⟨i / 4, by omega⟩ := Fin.ext (by simp only; omega)
          have e2 : c = ⟨i % 4, by omega⟩ := Fin.ext (by simp only; omega)
          simp [Matrix4f.assign, e1, e2]
        · exact hhigh (by omega)

theorem fillFrom_none (atof : List Char → Double) (toFloat : Double → Float32)
    (strs : List (List Char)) (h16 : strs.length < 16) (k : Nat) :
    ∀ (i : Nat) (matrix : Matrix4f), i + k = strs.length →
      fillFrom atof toFloat strs i matrix = none := by
  induction k with
  | zero =>
    intro i matrix hi
    have hlt : i < 16 := by omega
    have hget : strs[i]? = none := List.getElem?_eq_none (by omega)
    rw [fillFrom]
    simp only [hlt, dite_true, hget]
  | succ k ih =>
    intro i matrix hi
    have hlt : i < 16 := by omega
    have hget : strs[i]? = some (strs[i]) := List.getElem?_eq_getElem (by omega)
    rw [fillFrom]
    simp only [hlt, dite_true, hget]
    exact ih (i + 1) _ (by omega)

theorem ofCString_getline_eq_firstLine (stream : List Char)
    (hlen : (firstLine stream).length ≤ 1023) (hnul : '\x00' ∉ firstLine stream) :
    ofCString (getline stream 1024) = firstLine stream := by
  have h1 : getline stream 1024 = firstLine stream := by
    simp only [getline, firstLine] at hlen ⊢
    exact List.take_of_length_le hlen
  rw [h1, ofCString, List.takeWhile_eq_self_iff]
  intro x hx
  have : x ≠ '\x00' := fun e => hnul (e ▸ hx)
  simpa using this

end face_detection_apps_utils

theorem takeWhile_append_stop {α : Type} (p : α → Bool) (l r : List α) (a : α)
    (hl : ∀ x ∈ l, p x = true) (ha : p a = false) :
    (l ++ a :: r).takeWhile p = l := by
  induction l with
  | nil => simp [List.takeWhile_cons, ha]
  | cons x xs ih =>
    have hx : p x = true := hl x (by simp)
    simp only [List.cons_append, List.takeWhile_cons, hx, if_true]
    rw [ih (fun y hy => hl y (by simp [hy]))]

theorem longFirstLine_no_newline : ∀ x ∈ longFirstLine, (x != '\n') = true := by
  intro x hx
  simp only [longFirstLine, List.mem_append, List.mem_replicate, List.mem_cons] at hx
  rcases hx with ⟨_, rfl⟩ | rfl | hx
  · decide
  · decide
  · have hall : ∀ y ∈ "0 0 0 0 0 0 0 0 0 0 0 0 0 0 0".toList, (y != '\n') = true := by decide
    exact hall x hx

theorem firstLine_longLineFile : firstLine longLineFile = longFirstLine := by
  rw [firstLine, longLineFile]
  exact takeWhile_append_stop _ _ [] '\n' longFirstLine_no_newline (by decide)

theorem space_not_mem_replicate : ' ' ∉ List.replicate 1023 '0' :=
  fun h => absurd (List.eq_of_mem_replicate h) (by decide)

theorem split_longFirstLine_length : (split [' '] longFirstLine).length = 16 := by
  rw [longFirstLine, split_append_sep [' '] _ _ ' ' (List.mem_singleton.mpr rfl),
    split_of_not_mem ' ' (List.replicate 1023 '0') space_not_mem_replicate]
  decide

theorem line_of_longLineFile :
    ofCString (getline longLineFile 1024) = List.replicate 1023 '0' := by
  have h1 : getline longLineFile 1024 = List.replicate 1023 '0' := by
    have := firstLine_longLineFile
    rw [firstLine] at this
    rw [getline, this, longFirstLine]
    exact List.take_left' (List.length_replicate _ _)
  rw [h1, ofCString, List.takeWhile_eq_self_iff]
  intro x hx
  rw [List.eq_of_mem_replicate hx]
  decide

/-- C10, as stated, fails: the only line of `longLineFile` splits on the space character into 16
tokens, but `getline` stores only its first 1023 characters, one token, and the loop then reads
`strs_2[1]` out of bounds, whatever `atof`, the conversion to `float` and the matrix are. -/
theorem readMatrixFromFile_long_first_line :
    16 ≤ (split [' '] (firstLine longLineFile)).length
      ∧ (split [' '] (ofCString (getline longLineFile 1024))).length = 1
      ∧ ∀ (atof : List Char → Double) (toFloat : Double → Float32) (matrix : Matrix4f),
          readMatrixFromFile (fun _ => some longLineFile) atof toFloat "pose.txt".toList matrix
            = none := by
  have hone : split [' '] (ofCString (getline longLineFile 1024))
      = [List.replicate 1023 '0'] := by
    rw [line_of_longLineFile]
    exact split_of_not_mem ' ' _ space_not_mem_replicate
  refine ⟨?_, by rw [hone]; rfl, ?_⟩
  · rw [firstLine_longLineFile, split_longFirstLine_length]
  · intro atof toFloat matrix
    simp only [readMatrixFromFile, hone]
    rw [fillFrom_none atof toFloat [List.replicate 1023 '0'] (by decide) 1 0 matrix rfl]

/-- C10, amended: when the file cannot be opened, `readMatrixFromFile` returns false and leaves
the matrix unchanged. When it can be opened and the text that `getline` leaves in the 1024-byte
buffer (the first line cut to at most 1023 characters and at its first NUL) splits on the space
character into at least 16 tokens, it returns true and, for every `i` in `0..15`, token `i` is in
bounds and entry `(i / 4, i % 4)` is the `atof` value of token `i` converted to `float`. This
covers every file whose first line has at most 1023 characters, no NUL, and at least 16 tokens. -/
theorem readMatrixFromFile_spec (fs : List Char → Option (List Char))
    (atof : List Char → Double) (toFloat : Double → Float32) (file : List Char)
    (matrix : Matrix4f) :
    (fs file = none → readMatrixFromFile fs atof toFloat file matrix = some (false, matrix))
      ∧ (∀ stream, fs file = some stream →
          16 ≤ (split [' '] (ofCString (getline stream 1024))).length →
          ∃ filled, readMatrixFromFile fs atof toFloat file matrix = some (true, filled)
            ∧ ∀ (i : Nat) (h : i < 16),
                ∃ tok, (split [' '] (ofCString (getline stream 1024)))[i]? = some tok
                  ∧ filled ⟨i / 4, by omega⟩ ⟨i % 4, by omega⟩ = toFloat (atof tok))
      ∧ (∀ stream, fs file = some stream →
          (firstLine stream).length ≤ 1023 → '\x00' ∉ firstLine stream →
          16 ≤ (split [' '] (firstLine stream)).length →
          ∃ filled, readMatrixFromFile fs atof toFloat file matrix = some (true, filled)
            ∧ ∀ (i : Nat) (h : i < 16),
                ∃ tok, (split [' '] (firstLine stream))[i]? = some tok
                  ∧ filled ⟨i / 4, by omega⟩ ⟨i % 4, by omega⟩ = toFloat (atof tok)) := by
  have main : ∀ stream, fs file = some stream →
      16 ≤ (split [' '] (ofCString (getline stream 1024))).length →
      ∃ filled, readMatrixFromFile fs atof toFloat file matrix = some (true, filled)
        ∧ ∀ (i : Nat) (h : i < 16),
            ∃ tok, (split [' '] (ofCString (getline stream 1024)))[i]? = some tok
              ∧ filled ⟨i / 4, by omega⟩ ⟨i % 4, by omega⟩ = toFloat (atof tok) := by
    intro stream hfs h16
    obtain ⟨filled, hf, hspec⟩ := fillFrom_some atof toFloat _ h16 16 0 matrix (by simp)
    refine ⟨filled, ?_, ?_⟩
    · simp only [readMatrixFromFile, hfs, hf]
    · intro i hi
      obtain ⟨tok, htok, hval⟩ := (hspec ⟨i / 4, by omega⟩ ⟨i % 4, by omega⟩).2 (Nat.zero_le _)
      have hidx : 4 * (i / 4) + i % 4 = i := by omega
      simp only [hidx] at htok
      exact ⟨tok, htok, hval⟩
  refine ⟨?_, main, ?_⟩
  · intro hfs
    simp only [readMatrixFromFile, hfs]
  · intro stream hfs hlen hnul h16
    have hline := ofCString_getline_eq_firstLine stream hlen hnul
    have := main stream hfs (by rw [hline]; exact h16)
    rw [hline] at this
    exact this

theorem readMatrixFromFile_spec_witness :
    16 ≤ (split [' '] (ofCString (getline identityFile 1024))).length
      ∧ (∃ filled,
          readMatrixFromFile (fun _ => some identityFile) atofIntegral toFloatExact
              "pose.txt".toList (fun _ _ => IEEE.nan) = some (true, filled))
      ∧ readMatrixFromFile (fun _ => none) atofIntegral toFloatExact "pose.txt".toList
          (fun _ _ => IEEE.nan) = some (false, fun _ _ => IEEE.nan)
      ∧ ((firstLine identityFile).length ≤ 1023 ∧ '\x00' ∉ firstLine identityFile
        ∧ 16 ≤ (split [' '] (firstLine identityFile)).length
        ∧ ∃ filled,
            readMatrixFromFile (fun _ => some identityFile) atofIntegral toFloatExact
                "pose.txt".toList (fun _ _ => IEEE.nan) = some (true, filled)
              ∧ ∀ (i : Nat) (h : i < 16),
                  ∃ tok, (split [' '] (firstLine identityFile))[i]? = some tok
                    ∧ filled ⟨i / 4, by omega⟩ ⟨i % 4, by omega⟩
                        = toFloatExact (atofIntegral tok)) :=
  ⟨by decide,
    Exists.imp (fun _ h => h.1)
      ((readMatrixFromFile_spec (fun _ => some identityFile) atofIntegral toFloatExact
        "pose.txt".toList (fun _ _ => IEEE.nan)).2.1 identityFile rfl (by decide)),
    (readMatrixFromFile_spec (fun _ => none) atofIntegral toFloatExact "pose.txt".toList
      (fun _ _ => IEEE.nan)).1 rfl,
    ⟨by decide, by decide, by decide,
      (readMatrixFromFile_spec (fun _ => some identityFile) atofIntegral toFloatExact
        "pose.txt".toList (fun _ _ => IEEE.nan)).2.2 identityFile rfl (by decide) (by decide)
        (by decide)⟩⟩

end PCL
